import Mathlib

/-!
Verification development for the MovieRecs repository (Node.js, `src/index.js`
and the server source in `src/unnamed/part_000`).

The development shallowly embeds the algorithmic core of the server:

* the tokenizer / normalizer (`normalize_text`, `tokenize`, `is_name_only_bio`),
* the multinomial naive-Bayes classifier state and training
  (`createNaiveBayesModel`, `trainOne`, `predict`),
* the score combiner `choose_genre_deep`,
* the two-phase OMDb candidate-fetch pipeline
  (`omdb_search_then_fill`, `fetch_details_sequential`),
* the feedback endpoint (`handle_feedback`, `clamp_num`).

Conventions used throughout:

* JavaScript numbers are modelled as exact rationals (`ℚ`); the claims under
  study are about the exact arithmetic structure of the code (sums, maxima,
  divisions, clamps), not about floating-point rounding.
* `Math.log` / `Math.exp` are transcendental; log-scores are therefore carried
  multiplicatively: a score `log a₁ + ... + log aₙ` is represented by the
  positive rational `a₁ * ... * aₙ` (its "argument"), and statements about
  log-scores are phrased via `Real.log` of that argument.  `log` is finite
  exactly when its argument is a positive (finite) rational.
* JavaScript `Map` objects keyed by strings are modelled as association lists
  `List (String × ℕ)` (preserving insertion order, as JS `Map` does) or, for
  the fixed six-genre maps, as total functions `Genre → ℚ`.
* Network calls are modelled by oracle functions (page number ↦ response,
  imdbID ↦ response) so that one pipeline run is a pure function of the
  oracle.
-/

set_option maxHeartbeats 1000000

/-- The six genre labels, `GENRE_LABELS` in the source:
`["Sci-Fi", "Action", "Thriller", "Drama", "Mystery", "Romance"]`. -/
inductive Genre where
  | SciFi
  | Action
  | Thriller
  | Drama
  | Mystery
  | Romance
deriving DecidableEq, Repr, Fintype

/-- The list `GENRE_LABELS`, in source order (used for map-insertion order and the
user-bias loop). -/
def GENRE_LABELS : List Genre :=
  [.SciFi, .Action, .Thriller, .Drama, .Mystery, .Romance]

/-- The tie-break priority order used when choosing the winner in
`choose_genre_deep`: `["Sci-Fi", "Action", "Thriller", "Mystery", "Drama", "Romance"]`.
Note the order differs from `GENRE_LABELS` (Mystery before Drama). -/
def priorityL : List Genre :=
  [.SciFi, .Action, .Thriller, .Mystery, .Drama, .Romance]

/-- Position of a genre in `priorityL` (0-based). -/
def prIdx : Genre → ℕ
  | .SciFi => 0
  | .Action => 1
  | .Thriller => 2
  | .Mystery => 3
  | .Drama => 4
  | .Romance => 5

/-- Pointwise update of a genre-keyed map, mirroring `map.set(g, v)` on the
six-genre JS `Map`s. -/
def upd (f : Genre → ℚ) (g : Genre) (v : ℚ) : Genre → ℚ :=
  fun x => if x = g then v else f x

/- ===================== String utilities ===================== -/

/-- ASCII whitespace as matched by the JS regexes `\s` used in the source
(space, tab, newline, carriage return, vertical tab, form feed). -/
def is_ws (c : Char) : Bool :=
  c = ' ' || c = '\t' || c = '\n' || c = '\r' || c = '\x0b' || c = '\x0c'

/-- Whether `c` is in `[a-z0-9]` (the character class kept by `tokenize`'s
`replace(/[^a-z0-9\s]/g, " ")`). -/
def isLowAlnum (c : Char) : Bool :=
  (decide ('a' ≤ c) && decide (c ≤ 'z')) || (decide ('0' ≤ c) && decide (c ≤ '9'))

/-- Whether `c` is in `[A-Za-z]` (the class kept by `is_name_only_bio`'s
`replace(/[^A-Za-z\s]/g, " ")`). -/
def isAlpha2 (c : Char) : Bool :=
  (decide ('a' ≤ c) && decide (c ≤ 'z')) || (decide ('A' ≤ c) && decide (c ≤ 'Z'))

/-- Accumulator loop of `splitWs`: the first argument is the remaining
input, the second the (reversed) current chunk. -/
def splitWsGo : List Char → List Char → List (List Char)
  | [], acc => if acc.isEmpty then [] else [acc.reverse]
  | c :: rest, acc =>
    if is_ws c then
      if acc.isEmpty then splitWsGo rest [] else acc.reverse :: splitWsGo rest []
    else
      splitWsGo rest (c :: acc)

/-- Split a character list on whitespace, dropping empty chunks.  This is
`.split(/\s+/).filter(Boolean)` (equivalently, splitting on whitespace runs and
discarding empty strings at both ends). -/
def splitWs (l : List Char) : List (List Char) :=
  splitWsGo l []

/-- JS `String(s).toLowerCase()` (ASCII). -/
def toLowerStr (s : String) : String :=
  String.mk (s.data.map Char.toLower)

/-- JS `String.prototype.trim()` restricted to ASCII whitespace. -/
def jsTrim (s : String) : String :=
  String.mk (((s.data.dropWhile (fun c => is_ws c)).reverse.dropWhile
      (fun c => is_ws c)).reverse)

/-- Join word chunks with single spaces. -/
def joinSp : List (List Char) → List Char
  | [] => []
  | [w] => w
  | w :: rest => w ++ ' ' :: joinSp rest

/-- The source's `normalize_text`:
`String(s || "").toLowerCase().replace(/\s+/g, " ").trim()`.
Collapsing whitespace runs to single spaces and trimming is the same as
splitting into whitespace-separated words and re-joining with single
spaces. -/
def normalize_text (s : String) : String :=
  String.mk (joinSp (splitWs (s.data.map Char.toLower)))

/-- The source's `tokenize`: normalize, replace every character outside
`[a-z0-9\s]` with a space, split on whitespace runs, drop empties, keep the
first 120 tokens. -/
def tokenize (s : String) : List String :=
  ((splitWs (((normalize_text s).data.map
      (fun c => if isLowAlnum c || is_ws c then c else ' ')))).map
    String.mk).take 120

/-- Whether the character-list `pat` is an initial segment of the second
list. -/
def startsWithL : List Char → List Char → Bool
  | [], _ => true
  | _ :: _, [] => false
  | a :: as, b :: bs => a = b && startsWithL as bs

/-- Whether the character-list `pat` occurs contiguously inside `l`
(JS `String.prototype.includes`). -/
def occursIn (pat : List Char) : List Char → Bool
  | [] => pat.isEmpty
  | c :: rest => startsWithL pat (c :: rest) || occursIn pat rest

/-- JS `s.includes(pat)` on strings. -/
def strHas (s pat : String) : Bool :=
  occursIn pat.data s.data

/-- The source's `is_name_only_bio`: trim the raw bio; empty → false;
strip every character outside `[A-Za-z\s]` to spaces, split on whitespace,
drop empties; true iff 1–3 parts remain. -/
def is_name_only_bio (original_bio : String) : Bool :=
  let raw := jsTrim original_bio
  if raw = "" then false
  else
    let parts := splitWs (raw.data.map (fun c => if isAlpha2 c || is_ws c then c else ' '))
    decide (1 ≤ parts.length) && decide (parts.length ≤ 3)


/- ===================== Naive Bayes classifier ===================== -/

/-- The mutable state created by `createNaiveBayesModel(GENRE_LABELS)`:
per-label token-count map (`wordCounts`, a JS `Map` token ↦ count, modelled
as an insertion-ordered association list), per-label document count
(`docCounts`), per-label total token count (`totalWords`), and the global
vocabulary (`vocab`, a JS `Set` modelled as its insertion-ordered element
list).  All labels are initialized in the constructor, so the maps are total
over `Genre`; the JS guard `if (!wordCounts.has(label)) return` in `trainOne`
(a no-op for labels outside the fixed set) cannot fire for a `Genre`-typed
label. -/
structure NBState where
  wordCounts : Genre → List (String × ℕ)
  docCounts : Genre → ℕ
  totalWords : Genre → ℕ
  vocab : List String

/-- The freshly constructed model state: empty maps, zero counts, empty
vocabulary. -/
def initNB : NBState :=
  { wordCounts := fun _ => []
    docCounts := fun _ => 0
    totalWords := fun _ => 0
    vocab := [] }

/-- JS `m.set(tok, (m.get(tok) || 0) + 1)` on a `Map`: bump the count of
`tok`, keeping its insertion position, or append `(tok, 1)` at the end. -/
def bumpTok : List (String × ℕ) → String → List (String × ℕ)
  | [], t => [(t, 1)]
  | (k, v) :: rest, t => if k = t then (k, v + 1) :: rest else (k, v) :: bumpTok rest t

/-- JS `m.get(tok) || 0` on a `Map`. -/
def lookupTok : List (String × ℕ) → String → ℕ
  | [], _ => 0
  | (k, v) :: rest, t => if k = t then v else lookupTok rest t

/-- JS `vocab.add(tok)` on a `Set` (append if not present). -/
def addVocab (vocab : List String) (t : String) : List String :=
  if t ∈ vocab then vocab else vocab ++ [t]

/-- One iteration of `trainOne`'s token loop:
`vocab.add(tok); m.set(tok, (m.get(tok) || 0) + 1); totalWords.set(label, ... + 1)`. -/
def trainStep (st : NBState) (l : Genre) (tok : String) : NBState :=
  { st with
    vocab := addVocab st.vocab tok
    wordCounts := fun l2 => if l2 = l then bumpTok (st.wordCounts l2) tok else st.wordCounts l2
    totalWords := fun l2 => if l2 = l then st.totalWords l2 + 1 else st.totalWords l2 }

/-- The source's `trainOne(label, text)`: bump the label's document count, then fold the
token loop over `tokenize(text)`. -/
def trainOne (st : NBState) (l : Genre) (text : String) : NBState :=
  let st1 : NBState :=
    { st with docCounts := fun l2 => if l2 = l then st.docCounts l2 + 1 else st.docCounts l2 }
  (tokenize text).foldl (fun s tok => trainStep s l tok) st1

/-- A `trainBatch` call or any sequence of `trainOne` calls applied from the initial
state. -/
def trainSeq (seq : List (Genre × String)) : NBState :=
  seq.foldl (fun st p => trainOne st p.1 p.2) initNB

/-- The expression `vocab.size || 1` in `predict`. -/
def vocabSizeOf (st : NBState) : ℕ :=
  if st.vocab.length = 0 then 1 else st.vocab.length

/-- The expression `labels.reduce((sum, l) => sum + (docCounts.get(l) || 0), 0) || 1` in
`predict`. -/
def totalDocsOf (st : NBState) : ℕ :=
  let s := (GENRE_LABELS.map st.docCounts).sum
  if s = 0 then 1 else s

/-- The argument of the smoothed log-prior in `predict`:
`((docCounts.get(label) || 0) + 1) / (totalDocs + labels.length)`. -/
def priorFrac (st : NBState) (l : Genre) : ℚ :=
  ((st.docCounts l : ℚ) + 1) / ((totalDocsOf st : ℚ) + (GENRE_LABELS.length : ℚ))

/-- The argument of one token's smoothed log-likelihood in `predict`:
`((m.get(tok) || 0) + 1) / ((totalWords.get(label) || 0) + vocabSize)`. -/
def tokFrac (st : NBState) (l : Genre) (tok : String) : ℚ :=
  ((lookupTok (st.wordCounts l) tok : ℚ) + 1) /
    ((st.totalWords l : ℚ) + (vocabSizeOf st : ℚ))

/-- The per-label log-score of `predict(text)`, carried multiplicatively: the code
computes `score = log(priorFrac); for tok: score += log(tokFrac tok)`; we
carry the product of the arguments, so that the log-score is
`Real.log (predictArg ...)`. -/
def predictArg (st : NBState) (text : String) (l : Genre) : ℚ :=
  (tokenize text).foldl (fun sc tok => sc * tokFrac st l tok) (priorFrac st l)

/- ===================== Score combiner (choose_genre_deep) ===================== -/

/-- The NYC-location condition of `choose_genre_deep`:
`locNorm.includes("new york") || locNorm.includes("nyc") || locNorm === "ny"`.
Note the third disjunct is an exact equality, not a containment test. -/
def nycCond (locNorm : String) : Bool :=
  strHas locNorm "new york" || strHas locNorm "nyc" || locNorm = "ny"

/-- The tech-hub-location condition of `choose_genre_deep`:
`locNorm.includes("san francisco") || locNorm.includes("bay area") || locNorm.includes("seattle")`. -/
def techCond (locNorm : String) : Bool :=
  strHas locNorm "san francisco" || strHas locNorm "bay area" || strHas locNorm "seattle"

/-- One iteration of the user-bias loop of `choose_genre_deep`:
`const v = Number(userBias[g] || 0); if (Number.isFinite(v) && v !== 0) priors.set(g, priors.get(g) + v)`.
Rationals are always finite. -/
def biasStep (userBias : Genre → ℚ) (q : Genre → ℚ) (g : Genre) : Genre → ℚ :=
  let v := userBias g
  if v ≠ 0 then upd q g (q g + v) else q

/-- The user-bias loop of `choose_genre_deep`, folded over `GENRE_LABELS`. -/
def biasFold (userBias : Genre → ℚ) (p : Genre → ℚ) : Genre → ℚ :=
  GENRE_LABELS.foldl (biasStep userBias) p

/-- The heuristic-priors accumulator of `choose_genre_deep` (lines 139–182):
zero-initialized; `+0.7` on Drama for an empty normalized bio; `+0.9` on
Thriller for a non-empty name-only bio; `+0.35` on Action for an NYC
location; `+0.35` on Sci-Fi for a tech-hub location; then the user-bias
loop. -/
def priorsOf (bio loc : String) (userBias : Genre → ℚ) : Genre → ℚ :=
  let bioRaw := jsTrim bio
  let locRaw := jsTrim loc
  let bioNorm := normalize_text bioRaw
  let locNorm := normalize_text locRaw
  let p0 : Genre → ℚ := fun _ => 0
  let p1 := if bioNorm = "" then upd p0 .Drama (p0 .Drama + 7/10) else p0
  let p2 := if bioRaw ≠ "" ∧ is_name_only_bio bioRaw then
      upd p1 .Thriller (p1 .Thriller + 9/10) else p1
  let p3 := if nycCond locNorm then upd p2 .Action (p2 .Action + 7/20) else p2
  let p4 := if techCond locNorm then upd p3 .SciFi (p3 .SciFi + 7/20) else p3
  biasFold userBias p4

/-- The combination loop `combined.set(g, (probs.get(g) || 0) + (priors.get(g) || 0))`.
`probs` is the output of `softmaxFromLogScores(ml.scores)`; `softmax` is
transcendental, so the combiner is parameterized by the probability map it
receives (for any constant score vector the exact softmax output is the
uniform distribution `fun _ => 1/6`). -/
def combinedOf (probs : Genre → ℚ) (bio loc : String) (userBias : Genre → ℚ) : Genre → ℚ :=
  fun g => probs g + priorsOf bio loc userBias g

/-- The expression `[...combined.values()].reduce((a, b) => a + b, 0)` — the sum of the six
combined scores (insertion order `GENRE_LABELS`). -/
def totalOf (probs : Genre → ℚ) (bio loc : String) (userBias : Genre → ℚ) : ℚ :=
  (GENRE_LABELS.map (combinedOf probs bio loc userBias)).sum

/-- The winner-selection loop: `bestGenre = priority[0]; bestScore = -Infinity;
for g of priority: if (combined.get(g) > bestScore) { bestScore = ...; bestGenre = g }`.
`-Infinity` is modelled by `Option ℚ` with `none` below every rational; the
first iteration therefore always takes the current genre. -/
def pickBest (f : Genre → ℚ) : List Genre → Genre → Option ℚ → Genre
  | [], bg, _ => bg
  | g :: rest, _, none => pickBest f rest g (some (f g))
  | g :: rest, bg, some b =>
    if b < f g then pickBest f rest g (some (f g)) else pickBest f rest bg (some b)

/-- The result `selectBest f` is the genre chosen by the loop over `priorityL`. -/
def selectBest (f : Genre → ℚ) : Genre :=
  pickBest f priorityL (priorityL.headD .SciFi) none

/-- JS `+v.toFixed(3)` — round a rational to 3 decimal places (ECMA `toFixed`
picks the integer `n` minimizing `|n/10³ - x|`, the larger `n` on ties, which
is `⌊1000·x + 1/2⌋`). -/
def round3 (q : ℚ) : ℚ :=
  (⌊q * 1000 + 1/2⌋ : ℚ) / 1000

/-- The decision record returned by `choose_genre_deep`; the `reason` string
and `top_tokens` interpretability payload are not the subject of any claim
and are omitted.  `debugPriors`/`debugCombined` are the `debug.priors` and
`debug.combined` maps (values rounded via `toFixed`). -/
structure Decision where
  genre : Genre
  confidence : ℚ
  debugPriors : Genre → ℚ
  debugCombined : Genre → ℚ

/-- The source's `choose_genre_deep(bio, location, userBias)` (combination, selection,
confidence and debug maps), parameterized by the softmax probability map
`probs` (see `combinedOf`).
`total = [...combined.values()].reduce((a,b) => a+b, 0) || 1`: JS `|| 1`
replaces the divisor by 1 exactly when the sum is `0` (or `NaN`, which cannot
arise for rationals) — a negative sum is truthy and is kept.
`confidence = (combined.get(bestGenre) || 0) / total`. -/
def choose_genre_deep (probs : Genre → ℚ) (bio loc : String) (userBias : Genre → ℚ) :
    Decision :=
  let combined := combinedOf probs bio loc userBias
  let bestGenre := selectBest combined
  let total := totalOf probs bio loc userBias
  let total1 := if total = 0 then 1 else total
  { genre := bestGenre
    confidence := combined bestGenre / total1
    debugPriors := fun g => round3 (priorsOf bio loc userBias g)
    debugCombined := fun g => round3 (combined g) }

/- ===================== Candidate-fetch pipeline ===================== -/

/-- A movie detail record as used by the pipeline and the feedback loop.
`rating` is `parseFloat(movie.imdbRating)` when that yields a finite number
(`"N/A"` and other unparsable strings give `none`).  The remaining fields are
the metadata joined by `build_movie_training_text`; `none` models an absent
(or otherwise falsy) JSON field. -/
structure Movie where
  imdbID : String
  rating : Option ℚ
  title : Option String
  genreStr : Option String
  plot : Option String
  actors : Option String
  director : Option String
  writer : Option String
  year : Option String
deriving DecidableEq, Repr

/-- Response of one OMDb search-page request (`https_get_json` on the `s=`
endpoint): a network/JSON-parse failure (`err` in the callback), an
API-level failure (`!data || data.Response === "False"`), or a page of
results.  A search result is reduced to its `imdbID`; `none` models a falsy
result object or a falsy `imdbID` field. -/
inductive SearchResp where
  | neterr (e : String)
  | apiNo
  | page (rs : List (Option String))
deriving DecidableEq, Repr

/-- Response of one OMDb detail request (`https_get_json` on the `i=`
endpoint): network/parse failure, a response with `Response === "False"` (or
a falsy body), or a found movie record. -/
inductive DetailResp where
  | neterr (e : String)
  | noMatch
  | found (m : Movie)
deriving DecidableEq, Repr

/-- The body of the per-result dedup loop in `fetch_page`:
`if (r && r.imdbID && !seen.has(r.imdbID)) { seen.add(r.imdbID); candidates.push(r); }`. -/
def addCand (st : List String × List (Option String)) (r : Option String) :
    List String × List (Option String) :=
  match r with
  | none => st
  | some id => if id ∈ st.1 then st else (st.1 ++ [id], st.2 ++ [some id])

/-- Folding the dedup loop over one page's `Search` array. -/
def pageStep (st : List String × List (Option String)) (rs : List (Option String)) :
    List String × List (Option String) :=
  rs.foldl addCand st

/-- The constant `MAX_PAGES` in `omdb_search_then_fill`. -/
def MAX_PAGES : ℕ := 5

/-- Phase 1 (`fetch_page`), driven by a page oracle.  A network/parse failure
returns the error through the callback together with an empty result list
(`cb(err, [], debug)`); an API-level failure calls `finish()` with the
candidates collected so far; otherwise the page is deduplicated and appended,
and pagination continues unless `page >= MAX_PAGES` or at least 45 candidates
have accumulated. -/
def fetch_pages (oracle : ℕ → SearchResp) (page : ℕ) (seen : List String)
    (cands : List (Option String)) : Except String (List (Option String)) :=
  match oracle page with
  | .neterr e => .error e
  | .apiNo => .ok cands
  | .page rs =>
    let st := pageStep (seen, cands) rs
    if MAX_PAGES ≤ page ∨ 45 ≤ st.2.length then .ok st.2
    else fetch_pages oracle (page + 1) st.1 st.2
termination_by MAX_PAGES + 1 - page
decreasing_by
  simp only [MAX_PAGES] at *
  omega

/-- Phase 2 (`fetch_details_sequential`), driven by a detail oracle.  The
source iterates an index `i` over the candidate array; this is the same
recursion on the remaining candidate suffix.  The accepted-count check
(`acc.length >= limit`) comes first; a candidate with a falsy `imdbID` is
skipped; a failed fetch or a `Response === "False"` detail is skipped; an
available rating below `min_rating` (or an unparsable rating) is recorded as
filtered out (debug only) and excluded; otherwise the movie is appended to
`acc`. -/
def fetch_details_sequential (det : String → DetailResp) (limit : ℕ) (min_rating : ℚ) :
    List (Option String) → List Movie → List Movie
  | rem, acc =>
    if limit ≤ acc.length then acc
    else
      match rem with
      | [] => acc
      | none :: rest => fetch_details_sequential det limit min_rating rest acc
      | some id :: rest =>
        match det id with
        | .neterr _ => fetch_details_sequential det limit min_rating rest acc
        | .noMatch => fetch_details_sequential det limit min_rating rest acc
        | .found m =>
          match m.rating with
          | some r =>
            if min_rating ≤ r then
              fetch_details_sequential det limit min_rating rest (acc ++ [m])
            else fetch_details_sequential det limit min_rating rest acc
          | none => fetch_details_sequential det limit min_rating rest acc

/-- The source's `finish()` in `omdb_search_then_fill`: empty candidate list short-circuits
to an empty success, otherwise Phase 2 runs on the candidates. -/
def finishP (det : String → DetailResp) (limit : ℕ) (min_rating : ℚ)
    (cands : List (Option String)) : Except String (List Movie) :=
  if cands = [] then .ok []
  else .ok (fetch_details_sequential det limit min_rating cands [])

/-- The source's `omdb_search_then_fill(search_term, limit, min_rating, cb)` as a function
of the two network oracles (the search term only selects which oracle the
network realizes, so it is absorbed into `oracle`).  `.error e` models
`cb(err, [], debug)` — an error outcome carrying no results. -/
def omdb_search_then_fill (oracle : ℕ → SearchResp) (det : String → DetailResp)
    (limit : ℕ) (min_rating : ℚ) : Except String (List Movie) :=
  match fetch_pages oracle 1 [] [] with
  | .error e => .error e
  | .ok cands => finishP det limit min_rating cands

/- ===================== Feedback loop ===================== -/

/-- The `last` record stored on a session after a pipeline run:
`{ genre, moviesById, ts }`. -/
structure LastRun where
  genre : Genre
  moviesById : List (String × Movie)
  ts : ℕ
deriving DecidableEq, Repr

/-- A session record, restricted to the fields `handle_feedback` touches.
`preferenceBias` is `Option`al because the code defensively re-creates it
(`if (!session.preferenceBias) session.preferenceBias = init_bias()`). -/
structure Session where
  preferenceBias : Option (Genre → ℚ)
  last : Option LastRun

/-- The source's `init_bias()`: all-zero bias map. -/
def init_bias : Genre → ℚ := fun _ => 0

/-- The effective bias value of a session at a genre (`preferenceBias[g]`,
reading a missing map as the all-zero map the code would install). -/
def biasVal (s : Session) (g : Genre) : ℚ :=
  match s.preferenceBias with
  | some b => b g
  | none => 0

/-- The source's `clamp_num(n, min, max)`: non-finite inputs map to 0 (impossible for
rationals), otherwise `Math.max(min, Math.min(max, x))`. -/
def clamp_num (n lo hi : ℚ) : ℚ :=
  max lo (min hi n)

/-- The constant `STEP` in `handle_feedback`. -/
def STEPQ : ℚ := 1/4

/-- Object-property lookup `session.last.moviesById[imdbID]`. -/
def lookupMovie : List (String × Movie) → String → Option Movie
  | [], _ => none
  | (k, m) :: rest, id => if k = id then some m else lookupMovie rest id

/-- The join `[Title, Genre, Plot, Actors, Director, Writer, Year].filter(Boolean).join(" ")`
(an empty string is falsy in JS and is filtered out). -/
def build_movie_training_text (m : Movie) : String :=
  String.intercalate " "
    (([m.title, m.genreStr, m.plot, m.actors, m.director, m.writer, m.year].filterMap
      (fun o => match o with
        | some s => if s = "" then none else some s
        | none => none)))

/-- Parsed JSON body of `POST /feedback`. -/
structure FBody where
  imdbID : String
  action : String
deriving DecidableEq, Repr

/-- Outcome sent by `send_json` in `handle_feedback`: HTTP status and the
`ok` flag. -/
structure FeedbackResp where
  status : ℕ
  ok : Bool
deriving DecidableEq, Repr

/-- The source's `handle_feedback(req, res)`, as a function of the session resolved from
the request cookie (`none` = not logged in), the shared classifier state, and
the parsed body (`Except.error` = `parse_json_body` failure).  Returns the
session and classifier state after the call together with the response.
The source, in order: 401 if no session; 400 on a body-parse error; 400 if
the trimmed `imdbID` is empty or the trimmed lowercased `action` is neither
`"like"` nor `"dislike"`; 400 if the session has no `last` run; 404 if the
movie is not in `last.moviesById`; otherwise the bias entry for `last.genre`
is stepped by `±STEP` and clamped into `[-2, 2]`, and for `"like"` only, the
global model is trained on the movie's metadata text. -/
def handle_feedback (sess : Option Session) (nb : NBState)
    (body : Except String FBody) : Option Session × NBState × FeedbackResp :=
  match sess with
  | none => (none, nb, ⟨401, false⟩)
  | some s =>
    match body with
    | .error _ => (some s, nb, ⟨400, false⟩)
    | .ok b =>
      let imdbID := jsTrim b.imdbID
      let action := toLowerStr (jsTrim b.action)
      if imdbID = "" ∨ (action ≠ "like" ∧ action ≠ "dislike") then
        (some s, nb, ⟨400, false⟩)
      else
        match s.last with
        | none => (some s, nb, ⟨400, false⟩)
        | some lr =>
          match lookupMovie lr.moviesById imdbID with
          | none => (some s, nb, ⟨404, false⟩)
          | some movie =>
            let g := lr.genre
            let bias0 := s.preferenceBias.getD init_bias
            let newVal :=
              if action = "like" then clamp_num (bias0 g + STEPQ) (-2) 2
              else clamp_num (bias0 g - STEPQ) (-2) 2
            let bias1 := upd bias0 g newVal
            let nb1 := if action = "like" then trainOne nb g (build_movie_training_text movie) else nb
            (some { s with preferenceBias := some bias1 }, nb1, ⟨200, true⟩)

/-- One step of a feedback call sequence against an evolving session and
model (a logged-in session always stays present; the `none` fallback is
unreachable and returns the pair unchanged). -/
def feedbackStep (p : Session × NBState) (body : Except String FBody) :
    Session × NBState :=
  match handle_feedback (some p.1) p.2 body with
  | (some s2, nb2, _) => (s2, nb2)
  | (none, nb2, _) => (p.1, nb2)

/- ===================== Specification-side helpers ===================== -/

/-- Whether a candidate passes Phase 2: its detail fetch succeeds and its
parsed rating is a finite number `≥ min_rating`.  `some m` carries the
accepted detail record. -/
def detPasses (det : String → DetailResp) (minr : ℚ) : Option String → Option Movie
  | none => none
  | some id =>
    match det id with
    | .found m =>
      match m.rating with
      | some r => if minr ≤ r then some m else none
      | none => none
    | .neterr _ => none
    | .noMatch => none

/-- Modelled from the claim's words (C7): the subsequence of an id stream
keeping only the first occurrence of each id not already in `seen`, in
stream order. -/
def firstOccurAux (seen : List String) : List String → List String
  | [] => []
  | x :: xs => if x ∈ seen then firstOccurAux seen xs else x :: firstOccurAux (seen ++ [x]) xs

/-- Modelled from the claim's words (C7): first occurrences of a fresh id
stream, in first-seen order. -/
def firstOccur (l : List String) : List String :=
  firstOccurAux [] l

/-- The C8 state invariant: per-label total token count is the sum of that
label's token-count map values, and the vocabulary is exactly the union of
all labels' token keys. -/
def nbInv (st : NBState) : Prop :=
  (∀ l, st.totalWords l = ((st.wordCounts l).map Prod.snd).sum)
  ∧ ∀ t : String, t ∈ st.vocab ↔ ∃ l, t ∈ (st.wordCounts l).map Prod.fst

/-- Componentwise growth of classifier state: document counts, per-token
counts and total token counts never decrease, and the vocabulary never loses
an element. -/
def nbLE (s t : NBState) : Prop :=
  (∀ l, s.docCounts l ≤ t.docCounts l)
  ∧ (∀ l tok, lookupTok (s.wordCounts l) tok ≤ lookupTok (t.wordCounts l) tok)
  ∧ (∀ l, s.totalWords l ≤ t.totalWords l)
  ∧ ∀ tok, tok ∈ s.vocab → tok ∈ t.vocab

/- ===================== Concrete witness fixtures ===================== -/

/-- A movie record with only an id and a rating (all metadata absent). -/
def mkM (id : String) (r : Option ℚ) : Movie :=
  ⟨id, r, none, none, none, none, none, none, none⟩

/-- Scenario-D-style detail oracle: five candidates with ratings
9, 7, 9, N/A, 8 (integer ratings keep the witness kernel-evaluable). -/
def c5det : String → DetailResp := fun id =>
  if id = "m1" then .found (mkM "m1" (some 9))
  else if id = "m2" then .found (mkM "m2" (some 7))
  else if id = "m3" then .found (mkM "m3" (some 9))
  else if id = "m4" then .found (mkM "m4" none)
  else if id = "m5" then .found (mkM "m5" (some 8))
  else .noMatch

def c5cands : List (Option String) :=
  [some "m1", some "m2", some "m3", some "m4", some "m5"]

/-- Two search pages with overlapping ids: page 1 = [a, b], page 2 = [b, c, a]. -/
def c7pages : List (List (Option String)) :=
  [[some "a", some "b"], [some "b", some "c", some "a"]]

def c7oracle : ℕ → SearchResp := fun n =>
  if n = 1 then .page [some "a", some "b"]
  else if n = 2 then .page [some "b", some "c", some "a"]
  else .apiNo

/-- The uniform probability vector: the exact softmax output for any
constant log-score vector (six equal scores), each value in (0,1), summing
to 1. -/
def unifP : Genre → ℚ := fun _ => 1/6

/-- A feedback-reachable user-bias map (each value a clamped multiple of
STEP): Sci-Fi and Action fully disliked, the rest untouched. -/
def cexBias : Genre → ℚ := fun g =>
  match g with
  | .SciFi => -2
  | .Action => -2
  | _ => 0

/-- Page oracle whose page 1 succeeds with one candidate and whose page 2
fails at the network/JSON level. -/
def c1oracle : ℕ → SearchResp := fun n =>
  if n = 1 then .page [some "a"] else .neterr "boom"

def c1det : String → DetailResp := fun _ => .noMatch

/-- Page oracle whose page 1 succeeds and whose page 2 reports
`Response === "False"`. -/
def c1oracleB : ℕ → SearchResp := fun n =>
  if n = 1 then .page [some "a", some "b"] else .apiNo

/-- A last-run record holding one recommended movie. -/
def lr0 : LastRun := ⟨Genre.Drama, [("tt1", mkM "tt1" (some 9))], 0⟩

/-- A freshly created session (all-zero bias) with `lr0` as its last run. -/
def s0 : Session := ⟨some init_bias, some lr0⟩

/- ===================== C5: Phase 2 cap / filter / order ===================== -/

theorem length_filterMap_countP {α β : Type} (f : α → Option β) (l : List α) :
    (l.filterMap f).length = l.countP (fun a => (f a).isSome) := by
  induction l with
  | nil => simp
  | cons a t ih =>
    cases h : f a <;> simp [List.filterMap_cons, h, List.countP_cons, ih]

theorem detPasses_rating (det : String → DetailResp) (minr : ℚ)
    (c : Option String) (m : Movie) (h : detPasses det minr c = some m) :
    ∃ r, m.rating = some r ∧ minr ≤ r := by
  match c with
  | none => simp [detPasses] at h
  | some id =>
    cases hd : det id with
    | neterr e =>
      have hz : detPasses det minr (some id) = none := by simp [detPasses, hd]
      rw [hz] at h; simp at h
    | noMatch =>
      have hz : detPasses det minr (some id) = none := by simp [detPasses, hd]
      rw [hz] at h; simp at h
    | found mv =>
      cases hr : mv.rating with
      | none =>
        have hz : detPasses det minr (some id) = none := by simp [detPasses, hd, hr]
        rw [hz] at h; simp at h
      | some r =>
        by_cases hle : minr ≤ r
        · have hz : detPasses det minr (some id) = some mv := by simp [detPasses, hd, hr, hle]
          rw [hz] at h
          obtain rfl : mv = m := Option.some_inj.mp h
          exact ⟨r, hr, hle⟩
        · have hz : detPasses det minr (some id) = none := by simp [detPasses, hd, hr, hle]
          rw [hz] at h; simp at h

theorem fds_stop (det : String → DetailResp) (limit : ℕ) (minr : ℚ)
    (rem : List (Option String)) (acc : List Movie) (h : limit ≤ acc.length) :
    fetch_details_sequential det limit minr rem acc = acc := by
  rw [fetch_details_sequential.eq_def]
  simp [h]

theorem fds_cons_none (det : String → DetailResp) (limit : ℕ) (minr : ℚ)
    (rest : List (Option String)) (acc : List Movie) (h : ¬ limit ≤ acc.length) :
    fetch_details_sequential det limit minr (none :: rest) acc =
      fetch_details_sequential det limit minr rest acc := by
  rw [fetch_details_sequential.eq_def]
  simp [h]

theorem fds_cons_some (det : String → DetailResp) (limit : ℕ) (minr : ℚ)
    (id : String) (rest : List (Option String)) (acc : List Movie)
    (h : ¬ limit ≤ acc.length) :
    fetch_details_sequential det limit minr (some id :: rest) acc =
      (match detPasses det minr (some id) with
      | some m => fetch_details_sequential det limit minr rest (acc ++ [m])
      | none => fetch_details_sequential det limit minr rest acc) := by
  rw [fetch_details_sequential.eq_def]
  simp only [if_neg h]
  cases hd : det id with
  | neterr e => simp [detPasses, hd]
  | noMatch => simp [detPasses, hd]
  | found m =>
    cases hr : m.rating with
    | none => simp [detPasses, hd, hr]
    | some r =>
      by_cases hle : minr ≤ r
      · simp [detPasses, hd, hr, hle]
      · simp [detPasses, hd, hr, hle]

theorem fds_spec (det : String → DetailResp) (limit : ℕ) (minr : ℚ)
    (cands : List (Option String)) :
    ∀ acc : List Movie,
      fetch_details_sequential det limit minr cands acc =
        acc ++ (cands.filterMap (detPasses det minr)).take (limit - acc.length) := by
  induction cands with
  | nil =>
    intro acc
    rw [fetch_details_sequential.eq_def]
    by_cases h : limit ≤ acc.length <;> simp [h]
  | cons c rest ih =>
    intro acc
    by_cases h : limit ≤ acc.length
    · rw [fds_stop det limit minr _ acc h]
      simp [Nat.sub_eq_zero_of_le h]
    · have hsub : limit - acc.length = (limit - (acc.length + 1)) + 1 := by omega
      match c with
      | none =>
        rw [fds_cons_none det limit minr rest acc h, ih acc]
        simp [detPasses]
      | some id =>
        rw [fds_cons_some det limit minr id rest acc h]
        cases hp : detPasses det minr (some id) with
        | none => simpa [List.filterMap_cons, hp] using ih acc
        | some m =>
          simp only [List.filterMap_cons, hp]
          rw [ih (acc ++ [m])]
          rw [hsub, List.take_succ_cons]
          simp

/-- C5: In Phase 2, for every candidate list, limit and `min_rating`,
`fetch_details_sequential` returns exactly
`min(limit, number of passing candidates)` accepted results; the result list
is the passing candidates in candidate order truncated at `limit` (so
iteration effectively stops once the accepted count reaches `limit`), and
every accepted result carries a finite parsed rating `≥ min_rating`
(candidates whose rating does not parse are excluded). -/
theorem c5_fetch_details_cap (det : String → DetailResp) (limit : ℕ) (minr : ℚ)
    (cands : List (Option String)) :
    fetch_details_sequential det limit minr cands [] =
        (cands.filterMap (detPasses det minr)).take limit
    ∧ (fetch_details_sequential det limit minr cands []).length =
        min limit (cands.countP (fun c => (detPasses det minr c).isSome))
    ∧ ∀ m ∈ fetch_details_sequential det limit minr cands [],
        ∃ r, m.rating = some r ∧ minr ≤ r := by
  have heq := fds_spec det limit minr cands []
  simp only [List.nil_append, List.length_nil, Nat.sub_zero] at heq
  refine ⟨heq, ?_, ?_⟩
  · rw [heq, List.length_take, length_filterMap_countP]
  · intro m hm
    rw [heq] at hm
    have hm2 : m ∈ cands.filterMap (detPasses det minr) := List.mem_of_mem_take hm
    obtain ⟨c, _, hc⟩ := List.mem_filterMap.mp hm2
    exact detPasses_rating det minr c m hc

theorem c5_fetch_details_cap_witness :
    fetch_details_sequential c5det 3 8 c5cands [] =
        [mkM "m1" (some 9), mkM "m3" (some 9), mkM "m5" (some 8)]
    ∧ (fetch_details_sequential c5det 3 8 c5cands []).length = 3
    ∧ ∃ r, (mkM "m1" (some 9)).rating = some r ∧ (8:ℚ) ≤ r := by
  have h := c5_fetch_details_cap c5det 3 8 c5cands
  refine ⟨?_, ?_, ?_⟩
  · rw [h.1]; decide
  · rw [h.2.1]; decide
  · exact h.2.2 (mkM "m1" (some 9)) (by rw [h.1]; decide)

/- ===================== C7: Phase 1 dedup / first-seen order ===================== -/

theorem foldl_addCand_spec (os : List (Option String)) :
    ∀ (seen : List String) (cands : List (Option String)),
      os.foldl addCand (seen, cands) =
        (seen ++ firstOccurAux seen (os.filterMap (fun x => x)),
         cands ++ (firstOccurAux seen (os.filterMap (fun x => x))).map some) := by
  induction os with
  | nil => intro seen cands; simp [firstOccurAux]
  | cons o rest ih =>
    intro seen cands
    match o with
    | none => simpa [addCand] using ih seen cands
    | some id =>
      by_cases hmem : id ∈ seen
      · simp only [List.foldl_cons, addCand, if_pos hmem, List.filterMap_cons_some,
          firstOccurAux, if_pos hmem]
        exact ih seen cands
      · simp only [List.foldl_cons, addCand, if_neg hmem, List.filterMap_cons_some,
          firstOccurAux, if_neg hmem]
        rw [ih (seen ++ [id]) (cands ++ [some id])]
        simp

theorem firstOccurAux_nodup_fresh (ids : List String) :
    ∀ seen : List String,
      (firstOccurAux seen ids).Nodup ∧ ∀ x ∈ firstOccurAux seen ids, x ∉ seen := by
  induction ids with
  | nil => intro seen; simp [firstOccurAux]
  | cons x xs ih =>
    intro seen
    by_cases hmem : x ∈ seen
    · simpa [firstOccurAux, hmem] using ih seen
    · have h2 := ih (seen ++ [x])
      simp only [firstOccurAux, if_neg hmem]
      refine ⟨List.nodup_cons.mpr ⟨?_, h2.1⟩, ?_⟩
      · intro hx
        have := h2.2 x hx
        simp at this
      · intro y hy
        rcases List.mem_cons.mp hy with h | h
        · rw [h]; exact hmem
        · intro hseen
          exact h2.2 y h (by simp [hseen])

theorem pageStep_flat (pages : List (List (Option String))) :
    ∀ (seen : List String) (cands : List (Option String)),
      pages.foldl pageStep (seen, cands) =
        (pages.flatten).foldl addCand (seen, cands) := by
  induction pages with
  | nil => intro seen cands; simp
  | cons rs rest ih =>
    intro seen cands
    simp only [List.foldl_cons, List.flatten_cons, List.foldl_append, pageStep]
    rcases h : rs.foldl addCand (seen, cands) with ⟨s2, c2⟩
    exact ih s2 c2

theorem filterMap_map_some (F : List String) :
    (F.map some).filterMap (fun x => x) = F := by
  induction F with
  | nil => simp
  | cons a t ih => simp [ih]

theorem fetch_pages_eqn (oracle : ℕ → SearchResp) (page : ℕ) (seen : List String)
    (cands : List (Option String)) :
    fetch_pages oracle page seen cands =
      match oracle page with
      | .neterr e => .error e
      | .apiNo => .ok cands
      | .page rs =>
        if MAX_PAGES ≤ page ∨ 45 ≤ (pageStep (seen, cands) rs).2.length then
          .ok (pageStep (seen, cands) rs).2
        else fetch_pages oracle (page + 1) (pageStep (seen, cands) rs).1
          (pageStep (seen, cands) rs).2 := by
  rw [fetch_pages]

theorem fp_neterr (oracle : ℕ → SearchResp) (page : ℕ) (seen : List String)
    (cands : List (Option String)) (e : String) (h : oracle page = .neterr e) :
    fetch_pages oracle page seen cands = .error e := by
  rw [fetch_pages_eqn, h]

theorem fp_apiNo (oracle : ℕ → SearchResp) (page : ℕ) (seen : List String)
    (cands : List (Option String)) (h : oracle page = .apiNo) :
    fetch_pages oracle page seen cands = .ok cands := by
  rw [fetch_pages_eqn, h]

theorem fp_page (oracle : ℕ → SearchResp) (page : ℕ) (seen : List String)
    (cands : List (Option String)) (rs : List (Option String))
    (h : oracle page = .page rs) :
    fetch_pages oracle page seen cands =
      if MAX_PAGES ≤ page ∨ 45 ≤ (pageStep (seen, cands) rs).2.length then
        .ok (pageStep (seen, cands) rs).2
      else fetch_pages oracle (page + 1) (pageStep (seen, cands) rs).1
        (pageStep (seen, cands) rs).2 := by
  rw [fetch_pages_eqn, h]

theorem fetch_pages_nodup_aux (oracle : ℕ → SearchResp) :
    ∀ (n page : ℕ) (seen : List String) (cands : List (Option String)),
      MAX_PAGES + 1 - page ≤ n →
      seen = cands.filterMap (fun x => x) →
      seen.Nodup →
      ∀ cs, fetch_pages oracle page seen cands = .ok cs →
        (cs.filterMap (fun x => x)).Nodup := by
  intro n
  induction n with
  | zero =>
    intro page seen cands hn hinv hnd cs hok
    have hpage : MAX_PAGES ≤ page := by
      simp only [MAX_PAGES] at hn ⊢; omega
    cases ho : oracle page with
    | neterr e => rw [fp_neterr oracle page seen cands e ho] at hok; simp at hok
    | apiNo =>
      rw [fp_apiNo oracle page seen cands ho] at hok
      obtain rfl : cands = cs := Except.ok.inj hok
      rw [← hinv]; exact hnd
    | page rs =>
      rw [fp_page oracle page seen cands rs ho, if_pos (Or.inl hpage)] at hok
      obtain rfl := Except.ok.inj hok
      have hnf := firstOccurAux_nodup_fresh (rs.filterMap (fun x => x)) seen
      simp only [pageStep, foldl_addCand_spec rs seen cands]
      rw [List.filterMap_append, filterMap_map_some, ← hinv, List.nodup_append]
      exact ⟨hnd, hnf.1, fun a ha hb => hnf.2 a hb ha⟩
  | succ n ih =>
    intro page seen cands hn hinv hnd cs hok
    cases ho : oracle page with
    | neterr e => rw [fp_neterr oracle page seen cands e ho] at hok; simp at hok
    | apiNo =>
      rw [fp_apiNo oracle page seen cands ho] at hok
      obtain rfl : cands = cs := Except.ok.inj hok
      rw [← hinv]; exact hnd
    | page rs =>
      have hnf := firstOccurAux_nodup_fresh (rs.filterMap (fun x => x)) seen
      have hnodup2 : (seen ++ firstOccurAux seen (rs.filterMap (fun x => x))).Nodup := by
        rw [List.nodup_append]
        exact ⟨hnd, hnf.1, fun a ha hb => hnf.2 a hb ha⟩
      have hinv2 : seen ++ firstOccurAux seen (rs.filterMap (fun x => x)) =
          (cands ++ (firstOccurAux seen (rs.filterMap (fun x => x))).map some).filterMap
            (fun x => x) := by
        rw [List.filterMap_append, filterMap_map_some, ← hinv]
      rw [fp_page oracle page seen cands rs ho] at hok
      by_cases hc : MAX_PAGES ≤ page ∨ 45 ≤ (pageStep (seen, cands) rs).2.length
      · rw [if_pos hc] at hok
        obtain rfl := Except.ok.inj hok
        simp only [pageStep, foldl_addCand_spec rs seen cands]
        rw [List.filterMap_append, filterMap_map_some, ← hinv, List.nodup_append]
        exact ⟨hnd, hnf.1, fun a ha hb => hnf.2 a hb ha⟩
      · rw [if_neg hc] at hok
        simp only [pageStep, foldl_addCand_spec rs seen cands] at hok
        refine ih (page + 1) _ _ ?_ hinv2 hnodup2 cs hok
        push_neg at hc
        simp only [MAX_PAGES] at hn hc ⊢
        omega

/-- C7: In Phase 1, for every sequence of search pages (with arbitrarily
overlapping or repeated ids), the accumulated candidate list contains each
distinct external id at most once, deduplicated against all ids seen on all
previous pages, in first-seen order: folding the per-page dedup loop over
any page sequence yields exactly the first occurrences of the flattened
valid-id stream, and the candidate list produced by a successful Phase 1 run
(`fetch_pages` from page 1) has no duplicate ids. -/
theorem c7_dedup_first_seen (pages : List (List (Option String))) :
    (pages.foldl pageStep ([], [])).2.filterMap (fun x => x) =
        firstOccur ((pages.flatten).filterMap (fun x => x))
    ∧ ((pages.foldl pageStep ([], [])).2.filterMap (fun x => x)).Nodup
    ∧ ∀ (oracle : ℕ → SearchResp) (cs : List (Option String)),
        fetch_pages oracle 1 [] [] = .ok cs →
          (cs.filterMap (fun x => x)).Nodup := by
  have h1 : pages.foldl pageStep ([], []) =
      ([] ++ firstOccurAux [] ((pages.flatten).filterMap (fun x => x)),
       [] ++ (firstOccurAux [] ((pages.flatten).filterMap (fun x => x))).map some) := by
    rw [pageStep_flat pages [] []]
    exact foldl_addCand_spec (pages.flatten) [] []
  simp only [List.nil_append] at h1
  have hnf := firstOccurAux_nodup_fresh ((pages.flatten).filterMap (fun x => x)) []
  refine ⟨?_, ?_, ?_⟩
  · rw [h1, filterMap_map_some, firstOccur]
  · rw [h1, filterMap_map_some]; exact hnf.1
  · intro oracle cs hok
    exact fetch_pages_nodup_aux oracle (MAX_PAGES + 1) 1 [] [] (by simp) (by simp)
      List.nodup_nil cs hok

theorem c7_dedup_first_seen_witness :
    (c7pages.foldl pageStep ([], [])).2.filterMap (fun x => x) = ["a", "b", "c"]
    ∧ ((c7pages.foldl pageStep ([], [])).2.filterMap (fun x => x)).Nodup
    ∧ (([some "a", some "b", some "c"] : List (Option String)).filterMap
        (fun x => x)).Nodup := by
  have h := c7_dedup_first_seen c7pages
  have hp1 : pageStep (([] : List String), ([] : List (Option String)))
      [some "a", some "b"] = (["a", "b"], [some "a", some "b"]) := by decide
  have hp2 : pageStep ((["a", "b"] : List String),
      ([some "a", some "b"] : List (Option String))) [some "b", some "c", some "a"] =
      (["a", "b", "c"], [some "a", some "b", some "c"]) := by decide
  have hfp : fetch_pages c7oracle 1 [] [] = .ok [some "a", some "b", some "c"] := by
    rw [fp_page c7oracle 1 [] [] [some "a", some "b"] rfl]
    rw [hp1]
    rw [if_neg (by decide)]
    rw [fp_page c7oracle 2 ["a", "b"] [some "a", some "b"] [some "b", some "c", some "a"] rfl]
    rw [hp2]
    rw [if_neg (by decide)]
    exact fp_apiNo c7oracle 3 _ _ rfl
  refine ⟨?_, h.2.1, h.2.2 c7oracle [some "a", some "b", some "c"] hfp⟩
  rw [h.1]
  decide

/- ===================== C4: predict is Laplace-smoothed and finite ===================== -/

theorem one_le_totalDocsOf (st : NBState) : 1 ≤ totalDocsOf st := by
  have h : totalDocsOf st =
      if (GENRE_LABELS.map st.docCounts).sum = 0 then 1
      else (GENRE_LABELS.map st.docCounts).sum := rfl
  rw [h]
  split
  · omega
  · rename_i hne
    omega

theorem one_le_vocabSizeOf (st : NBState) : 1 ≤ vocabSizeOf st := by
  unfold vocabSizeOf
  split <;> omega

theorem priorFrac_pos (st : NBState) (l : Genre) : 0 < priorFrac st l := by
  unfold priorFrac
  apply div_pos
  · positivity
  · have h1 : (1:ℚ) ≤ (totalDocsOf st : ℚ) := by exact_mod_cast one_le_totalDocsOf st
    have h2 : (GENRE_LABELS.length : ℚ) = 6 := by norm_num [GENRE_LABELS]
    linarith

theorem tokFrac_pos (st : NBState) (l : Genre) (tok : String) : 0 < tokFrac st l tok := by
  unfold tokFrac
  apply div_pos
  · positivity
  · have h1 : (1:ℚ) ≤ (vocabSizeOf st : ℚ) := by exact_mod_cast one_le_vocabSizeOf st
    have h2 : (0:ℚ) ≤ (st.totalWords l : ℚ) := by positivity
    linarith

theorem foldl_mul_map (f : String → ℚ) (l : List String) :
    ∀ a : ℚ, l.foldl (fun sc tok => sc * f tok) a = a * (l.map f).prod := by
  induction l with
  | nil => intro a; simp
  | cons x xs ih =>
    intro a
    simp only [List.foldl_cons, List.map_cons, List.prod_cons, ih (a * f x)]
    ring

theorem log_prod_ne_zero (l : List ℝ) (h : ∀ x ∈ l, x ≠ 0) :
    Real.log l.prod = (l.map Real.log).sum := by
  induction l with
  | nil => simp
  | cons a t ih =>
    simp only [List.prod_cons, List.map_cons, List.sum_cons]
    have htne : t.prod ≠ 0 :=
      List.prod_ne_zero (fun hm => h 0 (List.mem_cons_of_mem a hm) rfl)
    rw [Real.log_mul (h a (List.mem_cons_self a t)) htne,
      ih (fun x hx => h x (by simp [hx]))]

/-- C4: For every classifier state (hence every text and training history,
including empty text and out-of-vocabulary tokens), `predict`'s per-label
score is exactly the Laplace-smoothed log-score
`log((docCount+1)/(totalDocs+numLabels)) + Σ_tok log((tokenCount+1)/(totalTokens+vocabSize))`
with `vocabSize ≥ 1` and `totalDocs ≥ 1` substituted as in the source, and
this log-score is finite for every label: the score's argument is a strictly
positive rational, so its logarithm is a (finite) real number. -/
theorem c4_predict_smoothed (st : NBState) (text : String) (l : Genre) :
    0 < predictArg st text l
    ∧ predictArg st text l = priorFrac st l * ((tokenize text).map (tokFrac st l)).prod
    ∧ Real.log ((predictArg st text l : ℚ) : ℝ) =
        Real.log ((priorFrac st l : ℚ) : ℝ)
          + ((tokenize text).map (fun tok => Real.log ((tokFrac st l tok : ℚ) : ℝ))).sum := by
  have heq : predictArg st text l = priorFrac st l * ((tokenize text).map (tokFrac st l)).prod :=
    foldl_mul_map (tokFrac st l) (tokenize text) (priorFrac st l)
  have hprodpos : 0 < ((tokenize text).map (tokFrac st l)).prod := by
    apply List.prod_pos
    intro x hx
    obtain ⟨tok, _, rfl⟩ := List.mem_map.mp hx
    exact tokFrac_pos st l tok
  have hpos : 0 < predictArg st text l := by
    rw [heq]; exact mul_pos (priorFrac_pos st l) hprodpos
  refine ⟨hpos, heq, ?_⟩
  have hprne : ((priorFrac st l : ℚ) : ℝ) ≠ 0 := by
    have h0 : (0:ℝ) < ((priorFrac st l : ℚ) : ℝ) := by exact_mod_cast priorFrac_pos st l
    exact h0.ne.symm
  have hpdne : ((((tokenize text).map (tokFrac st l)).prod : ℚ) : ℝ) ≠ 0 := by
    have h0 : (0:ℝ) < ((((tokenize text).map (tokFrac st l)).prod : ℚ) : ℝ) := by
      exact_mod_cast hprodpos
    exact h0.ne.symm
  have hcast : ((((tokenize text).map (tokFrac st l)).prod : ℚ) : ℝ)
      = (((tokenize text).map (tokFrac st l)).map (fun q : ℚ => (q : ℝ))).prod := by
    have hh := List.prod_hom ((tokenize text).map (tokFrac st l))
      ((Rat.castHom ℝ).toMonoidHom)
    simp only [RingHom.toMonoidHom_eq_coe, MonoidHom.coe_coe] at hh
    exact hh.symm
  rw [heq, Rat.cast_mul, Real.log_mul hprne hpdne]
  congr 1
  rw [hcast, log_prod_ne_zero]
  · rw [List.map_map, List.map_map]
    rfl
  · intro x hx
    obtain ⟨y, hy, rfl⟩ := List.mem_map.mp hx
    obtain ⟨tok, _, rfl⟩ := List.mem_map.mp hy
    have h2 : (0:ℝ) < ((tokFrac st l tok : ℚ) : ℝ) := by exact_mod_cast tokFrac_pos st l tok
    exact h2.ne.symm

/- ===================== C8: classifier state invariant / monotonicity ===================== -/

theorem nbLE_refl (s : NBState) : nbLE s s :=
  ⟨fun _ => le_refl _, fun _ _ => le_refl _, fun _ => le_refl _, fun _ h => h⟩

theorem nbLE_trans {a b c : NBState} (h1 : nbLE a b) (h2 : nbLE b c) : nbLE a c :=
  ⟨fun l => le_trans (h1.1 l) (h2.1 l),
   fun l t => le_trans (h1.2.1 l t) (h2.2.1 l t),
   fun l => le_trans (h1.2.2.1 l) (h2.2.2.1 l),
   fun t ht => h2.2.2.2 t (h1.2.2.2 t ht)⟩

theorem sum_bumpTok (m : List (String × ℕ)) (t : String) :
    ((bumpTok m t).map Prod.snd).sum = (m.map Prod.snd).sum + 1 := by
  induction m with
  | nil => simp [bumpTok]
  | cons kv rest ih =>
    rcases kv with ⟨k, v⟩
    by_cases hk : k = t
    · simp [bumpTok, hk]
      omega
    · simp [bumpTok, hk, ih]
      omega

theorem mem_keys_bumpTok (m : List (String × ℕ)) (t s : String) :
    s ∈ (bumpTok m t).map Prod.fst ↔ s ∈ m.map Prod.fst ∨ s = t := by
  induction m with
  | nil => simp [bumpTok]
  | cons kv rest ih =>
    rcases kv with ⟨k, v⟩
    by_cases hk : k = t
    · subst hk
      simp [bumpTok]
      tauto
    · simp [bumpTok, hk, ih]
      tauto

theorem lookup_bumpTok (m : List (String × ℕ)) (t s : String) :
    lookupTok (bumpTok m t) s = if s = t then lookupTok m s + 1 else lookupTok m s := by
  induction m with
  | nil =>
    by_cases h : s = t
    · subst h; simp [bumpTok, lookupTok]
    · have h2 : ¬ t = s := fun he => h he.symm
      simp [bumpTok, lookupTok, h, h2]
  | cons kv rest ih =>
    rcases kv with ⟨k, v⟩
    by_cases hk : k = t
    · subst hk
      by_cases hs : k = s
      · subst hs; simp [bumpTok, lookupTok]
      · have h2 : ¬ s = k := fun he => hs he.symm
        simp [bumpTok, lookupTok, hs, h2]
    · by_cases hs : k = s
      · subst hs
        simp [bumpTok, hk, lookupTok]
      · simp [bumpTok, hk, lookupTok, hs, ih]

theorem mem_addVocab (v : List String) (t s : String) :
    s ∈ addVocab v t ↔ s ∈ v ∨ s = t := by
  unfold addVocab
  split_ifs with h
  · constructor
    · exact Or.inl
    · rintro (hs | rfl)
      · exact hs
      · exact h
  · simp

theorem trainStep_inv (st : NBState) (l : Genre) (tok : String) (h : nbInv st) :
    nbInv (trainStep st l tok) := by
  obtain ⟨h1, h2⟩ := h
  constructor
  · intro l2
    simp only [trainStep]
    by_cases he : l2 = l
    · rw [if_pos he, if_pos he, sum_bumpTok, h1 l2]
    · rw [if_neg he, if_neg he]
      exact h1 l2
  · intro t
    simp only [trainStep, mem_addVocab]
    constructor
    · rintro (hv | rfl)
      · obtain ⟨l2, hl2⟩ := (h2 t).mp hv
        refine ⟨l2, ?_⟩
        by_cases he : l2 = l
        · rw [if_pos he]
          exact (mem_keys_bumpTok _ _ _).mpr (Or.inl hl2)
        · rw [if_neg he]
          exact hl2
      · exact ⟨l, by rw [if_pos rfl]; exact (mem_keys_bumpTok _ _ _).mpr (Or.inr rfl)⟩
    · rintro ⟨l2, hl2⟩
      by_cases he : l2 = l
      · rw [if_pos he] at hl2
        rcases (mem_keys_bumpTok _ _ _).mp hl2 with hold | rfl
        · exact Or.inl ((h2 t).mpr ⟨l2, hold⟩)
        · exact Or.inr rfl
      · rw [if_neg he] at hl2
        exact Or.inl ((h2 t).mpr ⟨l2, hl2⟩)

theorem trainStep_le (st : NBState) (l : Genre) (tok : String) :
    nbLE st (trainStep st l tok) := by
  refine ⟨fun l2 => le_refl _, fun l2 t => ?_, fun l2 => ?_, fun t ht => ?_⟩
  · simp only [trainStep]
    by_cases he : l2 = l
    · rw [if_pos he, lookup_bumpTok]
      split_ifs <;> omega
    · rw [if_neg he]
  · simp only [trainStep]
    split_ifs <;> omega
  · simp only [trainStep, mem_addVocab]
    exact Or.inl ht

theorem docBump_le (st : NBState) (l : Genre) :
    nbLE st { st with docCounts := fun l2 => if l2 = l then st.docCounts l2 + 1 else st.docCounts l2 } := by
  refine ⟨fun l2 => ?_, fun l2 t => le_refl _, fun l2 => le_refl _, fun t ht => ht⟩
  by_cases he : l2 = l <;> simp [he]

theorem foldTrain_inv (l : Genre) (toks : List String) :
    ∀ st, nbInv st → nbInv (toks.foldl (fun s tok => trainStep s l tok) st) := by
  induction toks with
  | nil => intro st h; exact h
  | cons a t ih => intro st h; exact ih _ (trainStep_inv st l a h)

theorem foldTrain_le (l : Genre) (toks : List String) :
    ∀ st, nbLE st (toks.foldl (fun s tok => trainStep s l tok) st) := by
  induction toks with
  | nil => intro st; exact nbLE_refl st
  | cons a t ih => intro st; exact nbLE_trans (trainStep_le st l a) (ih _)

theorem trainOne_inv (st : NBState) (l : Genre) (text : String) (h : nbInv st) :
    nbInv (trainOne st l text) := by
  unfold trainOne
  apply foldTrain_inv
  exact ⟨h.1, h.2⟩

theorem trainOne_le (st : NBState) (l : Genre) (text : String) :
    nbLE st (trainOne st l text) := by
  unfold trainOne
  exact nbLE_trans (docBump_le st l) (foldTrain_le l (tokenize text) _)

theorem nbInv_init : nbInv initNB := by
  constructor
  · intro l; simp [initNB]
  · intro t; simp [initNB]

theorem foldSeq_inv (seq : List (Genre × String)) :
    ∀ st, nbInv st → nbInv (seq.foldl (fun s p => trainOne s p.1 p.2) st) := by
  induction seq with
  | nil => intro st h; exact h
  | cons a t ih => intro st h; exact ih _ (trainOne_inv st a.1 a.2 h)

theorem foldSeq_le (seq : List (Genre × String)) :
    ∀ st, nbLE st (seq.foldl (fun s p => trainOne s p.1 p.2) st) := by
  induction seq with
  | nil => intro st; exact nbLE_refl st
  | cons a t ih => intro st; exact nbLE_trans (trainOne_le st a.1 a.2) (ih _)

/-- C8: For every sequence of `trainOne` calls from the initial classifier
state, the resulting state satisfies the invariant (per-label total token
count is the sum of that label's token-count map values; the vocabulary is
the union of all labels' token keys), and state only grows along any further
training: document counts, token counts and the vocabulary never shrink. -/
theorem c8_classifier_invariant (seq : List (Genre × String)) :
    nbInv (trainSeq seq) ∧ ∀ more, nbLE (trainSeq seq) (trainSeq (seq ++ more)) := by
  constructor
  · exact foldSeq_inv seq initNB nbInv_init
  · intro more
    rw [trainSeq, trainSeq, List.foldl_append]
    exact foldSeq_le more _

/- ===================== Combiner evaluation lemmas ===================== -/

theorem biasFoldList_eval (ub : Genre → ℚ) (L : List Genre) (hN : L.Nodup) :
    ∀ (p : Genre → ℚ) (g : Genre),
      (L.foldl (biasStep ub) p) g = p g + if g ∈ L then ub g else 0 := by
  induction L with
  | nil => intro p g; simp
  | cons a rest ih =>
    intro p g
    have hN2 : rest.Nodup := (List.nodup_cons.mp hN).2
    have ha : a ∉ rest := (List.nodup_cons.mp hN).1
    simp only [List.foldl_cons]
    rw [ih hN2]
    by_cases hg : g = a
    · subst hg
      have hnm : ¬ g ∈ rest := ha
      simp only [hnm, if_neg hnm, List.mem_cons, true_or, if_pos (Or.inl rfl)]
      by_cases hv : ub g = 0 <;> simp [biasStep, hv, upd]
    · have hstep : biasStep ub p a g = p g := by
        by_cases hv : ub a = 0 <;> simp [biasStep, hv, upd, hg]
      rw [hstep]
      by_cases hm : g ∈ rest <;> simp [hm, hg]

theorem biasFold_eval (ub : Genre → ℚ) (p : Genre → ℚ) (g : Genre) :
    biasFold ub p g = p g + ub g := by
  rw [biasFold, biasFoldList_eval ub GENRE_LABELS (by decide) p g]
  have hm : g ∈ GENRE_LABELS := by cases g <;> simp [GENRE_LABELS]
  rw [if_pos hm]

theorem priorsOf_eval (bio loc : String) (ub : Genre → ℚ) (g : Genre) :
    priorsOf bio loc ub g =
      (if normalize_text (jsTrim bio) = "" ∧ g = Genre.Drama then (7:ℚ)/10 else 0)
      + (if (¬ jsTrim bio = "" ∧ is_name_only_bio (jsTrim bio) = true)
            ∧ g = Genre.Thriller then (9:ℚ)/10 else 0)
      + (if nycCond (normalize_text (jsTrim loc)) = true ∧ g = Genre.Action
          then (7:ℚ)/20 else 0)
      + (if techCond (normalize_text (jsTrim loc)) = true ∧ g = Genre.SciFi
          then (7:ℚ)/20 else 0)
      + ub g := by
  cases g <;>
    (simp only [priorsOf]
     rw [biasFold_eval]
     split_ifs <;> simp_all [upd])

theorem selectBest_le (f : Genre → ℚ) (g : Genre) : f g ≤ f (selectBest f) := by
  have h : selectBest f = pickBest f priorityL (priorityL.headD .SciFi) none := rfl
  rw [h]
  simp only [priorityL, List.headD, pickBest]
  split_ifs <;> cases g <;> linarith

theorem selectBest_tie (f : Genre → ℚ) :
    ∀ g, f (selectBest f) = f g → prIdx (selectBest f) ≤ prIdx g := by
  have h : selectBest f = pickBest f priorityL (priorityL.headD .SciFi) none := rfl
  rw [h]
  simp only [priorityL, List.headD, pickBest]
  split_ifs <;> intro g hg <;> cases g <;> simp only [prIdx] <;>
    first | omega | (exfalso; linarith)

/-- Neutral inputs: a four-word bio and an empty location fire none of the
heuristic rules, so the priors are exactly the user bias. -/
theorem priors_abcd (ub : Genre → ℚ) (g : Genre) :
    priorsOf "a b c d" "" ub g = ub g := by
  rw [priorsOf_eval]
  have h1 : ¬ normalize_text (jsTrim "a b c d") = "" := by decide
  have h2 : is_name_only_bio (jsTrim "a b c d") = false := by decide
  have h3 : nycCond (normalize_text (jsTrim "")) = false := by decide
  have h4 : techCond (normalize_text (jsTrim "")) = false := by decide
  simp [h1, h2, h3, h4]

/- ===================== C6: argmax with fixed priority tie-break ===================== -/

/-- C6: The selected genre maximizes the combined score (softmax probability
plus priors) over all six labels, and on ties the label first in the fixed
priority ordering `priorityL` wins (the loop is checked first-to-last with a
strict comparison, so the first maximum wins): the winner's priority index
is minimal among all labels attaining the maximum. -/
theorem c6_argmax_priority (probs : Genre → ℚ) (bio loc : String) (bias : Genre → ℚ) :
    (∀ g, combinedOf probs bio loc bias g ≤
        combinedOf probs bio loc bias (choose_genre_deep probs bio loc bias).genre)
    ∧ ∀ g, combinedOf probs bio loc bias (choose_genre_deep probs bio loc bias).genre =
          combinedOf probs bio loc bias g →
        prIdx (choose_genre_deep probs bio loc bias).genre ≤ prIdx g := by
  have hg : (choose_genre_deep probs bio loc bias).genre =
      selectBest (combinedOf probs bio loc bias) := rfl
  rw [hg]
  exact ⟨fun g => selectBest_le _ g, fun g h => selectBest_tie _ g h⟩

theorem c6_argmax_priority_witness :
    combinedOf unifP "a b c d" "" init_bias Genre.Drama ≤
      combinedOf unifP "a b c d" "" init_bias
        (choose_genre_deep unifP "a b c d" "" init_bias).genre
    ∧ prIdx (choose_genre_deep unifP "a b c d" "" init_bias).genre ≤ prIdx Genre.Drama := by
  have h := c6_argmax_priority unifP "a b c d" "" init_bias
  refine ⟨h.1 Genre.Drama, h.2 Genre.Drama ?_⟩
  have hc : ∀ g, combinedOf unifP "a b c d" "" init_bias g = 1/6 := by
    intro g
    simp [combinedOf, unifP, priors_abcd, init_bias]
  rw [hc, hc]

/- ===================== C2: confidence formula ===================== -/

/-- C2 counterexample: the claim says the confidence divisor is replaced by 1
whenever the sum of combined values is `≤ 0` and that the confidence always
lies in `[0, 1]`.  With the uniform softmax output, a neutral bio/location
and a feedback-reachable bias (Sci-Fi and Action at the -2 clamp), the sum
of combined values is `-3`: JS `|| 1` keeps a negative (truthy) divisor, the
code divides by `-3` and returns confidence `-1/18`, which differs from the
claimed divisor-1 value and lies outside `[0, 1]`. -/
theorem c2_cex :
    totalOf unifP "a b c d" "" cexBias = -3
    ∧ (choose_genre_deep unifP "a b c d" "" cexBias).confidence = -1/18
    ∧ (choose_genre_deep unifP "a b c d" "" cexBias).confidence ≠
        combinedOf unifP "a b c d" "" cexBias
          (choose_genre_deep unifP "a b c d" "" cexBias).genre / 1
    ∧ (choose_genre_deep unifP "a b c d" "" cexBias).confidence < 0 := by
  have hcomb : ∀ g, combinedOf unifP "a b c d" "" cexBias g = 1/6 + cexBias g := by
    intro g
    simp only [combinedOf, unifP]
    rw [priors_abcd]
  have htot : totalOf unifP "a b c d" "" cexBias = -3 := by
    simp only [totalOf, GENRE_LABELS, List.map_cons, List.map_nil, List.sum_cons,
      List.sum_nil, hcomb]
    norm_num [cexBias]
  have hbest : selectBest (combinedOf unifP "a b c d" "" cexBias) = Genre.Thriller := by
    simp only [selectBest, priorityL, List.headD, pickBest, hcomb]
    norm_num [cexBias]
  have hconf : (choose_genre_deep unifP "a b c d" "" cexBias).confidence =
      combinedOf unifP "a b c d" "" cexBias
          (selectBest (combinedOf unifP "a b c d" "" cexBias)) /
        (if totalOf unifP "a b c d" "" cexBias = 0 then 1
         else totalOf unifP "a b c d" "" cexBias) := rfl
  have hgenre : (choose_genre_deep unifP "a b c d" "" cexBias).genre =
      selectBest (combinedOf unifP "a b c d" "" cexBias) := rfl
  have hcval : (choose_genre_deep unifP "a b c d" "" cexBias).confidence = -1/18 := by
    rw [hconf, hbest, htot, hcomb]
    norm_num [cexBias]
  refine ⟨htot, hcval, ?_, ?_⟩
  · rw [hcval, hgenre, hbest, hcomb]
    norm_num [cexBias]
  · rw [hcval]
    norm_num

/-- C2 (amended): the confidence equals the selected label's combined score
divided by the sum of all labels' combined values, with the divisor replaced
by 1 exactly when that sum equals 0 (JS `|| 1` — a negative sum is truthy
and is kept); whenever all combined values are nonnegative (in particular
with nonnegative user bias) the confidence lies in `[0, 1]`, but with
negative combined values it can leave that interval. -/
theorem c2_amended_confidence (probs : Genre → ℚ) (bio loc : String) (bias : Genre → ℚ) :
    (choose_genre_deep probs bio loc bias).confidence =
      combinedOf probs bio loc bias (choose_genre_deep probs bio loc bias).genre /
        (if totalOf probs bio loc bias = 0 then 1 else totalOf probs bio loc bias)
    ∧ ((∀ g, 0 ≤ combinedOf probs bio loc bias g) →
        0 ≤ (choose_genre_deep probs bio loc bias).confidence
        ∧ (choose_genre_deep probs bio loc bias).confidence ≤ 1) := by
  constructor
  · rfl
  · intro hpos
    have hmem : ∀ g : Genre,
        combinedOf probs bio loc bias g ∈ GENRE_LABELS.map (combinedOf probs bio loc bias) :=
      fun g => List.mem_map.mpr ⟨g, by cases g <;> simp [GENRE_LABELS], rfl⟩
    have hsum : totalOf probs bio loc bias =
        (GENRE_LABELS.map (combinedOf probs bio loc bias)).sum := rfl
    have hnn : ∀ x ∈ GENRE_LABELS.map (combinedOf probs bio loc bias), 0 ≤ x := by
      intro x hx
      obtain ⟨g, _, rfl⟩ := List.mem_map.mp hx
      exact hpos g
    have htnn : 0 ≤ totalOf probs bio loc bias := by
      rw [hsum]; exact List.sum_nonneg hnn
    have hle : ∀ g, combinedOf probs bio loc bias g ≤ totalOf probs bio loc bias := by
      intro g
      rw [hsum]
      exact List.single_le_sum hnn _ (hmem g)
    have hconf : (choose_genre_deep probs bio loc bias).confidence =
        combinedOf probs bio loc bias (selectBest (combinedOf probs bio loc bias)) /
          (if totalOf probs bio loc bias = 0 then 1 else totalOf probs bio loc bias) := rfl
    rw [hconf]
    by_cases h0 : totalOf probs bio loc bias = 0
    · rw [if_pos h0]
      have hz : combinedOf probs bio loc bias (selectBest (combinedOf probs bio loc bias)) = 0 :=
        le_antisymm (h0 ▸ hle _) (hpos _)
      rw [hz]
      norm_num
    · rw [if_neg h0]
      have hpos2 : 0 < totalOf probs bio loc bias := lt_of_le_of_ne htnn (Ne.symm h0)
      constructor
      · exact div_nonneg (hpos _) htnn
      · rw [div_le_one hpos2]
        exact hle _

theorem c2_amended_confidence_witness :
    (choose_genre_deep unifP "a b c d" "" init_bias).confidence =
      combinedOf unifP "a b c d" "" init_bias
          (choose_genre_deep unifP "a b c d" "" init_bias).genre /
        (if totalOf unifP "a b c d" "" init_bias = 0 then 1
         else totalOf unifP "a b c d" "" init_bias)
    ∧ (0 ≤ (choose_genre_deep unifP "a b c d" "" init_bias).confidence
       ∧ (choose_genre_deep unifP "a b c d" "" init_bias).confidence ≤ 1) := by
  have h := c2_amended_confidence unifP "a b c d" "" init_bias
  refine ⟨h.1, h.2 ?_⟩
  intro g
  simp [combinedOf, unifP, priors_abcd, init_bias]

/- ===================== C3: location priors ===================== -/

/-- C3 counterexample: the claim reads the location rules as "for every
location whose normalization contains one of the configured substrings, the
associated genre's prior increases by the rule's weight, one rule per
matched substring, stacking additively; any location containing a New York
indicator yields a strictly positive Action prior".  The code differs in two
ways.  (1) The "ny" indicator is matched by exact equality of the whole
normalized location, not containment: "Albany" contains "ny" yet its Action
prior — including in the decision's debug output — is 0.  (2) The three NYC
substrings form one rule guarded by a single `if`, applied at most once:
"nyc and New York" matches both "new york" and "nyc" yet gains 7/20, not
2 · 7/20. -/
theorem c3_cex :
    strHas (normalize_text (jsTrim "Albany")) "ny" = true
    ∧ priorsOf "" "Albany" init_bias Genre.Action = 0
    ∧ (choose_genre_deep unifP "" "Albany" init_bias).debugPriors Genre.Action = 0
    ∧ strHas (normalize_text (jsTrim "nyc and New York")) "new york" = true
    ∧ strHas (normalize_text (jsTrim "nyc and New York")) "nyc" = true
    ∧ priorsOf "" "nyc and New York" init_bias Genre.Action = 7/20 := by
  have h3 : nycCond (normalize_text (jsTrim "Albany")) = false := by decide
  have hpr : priorsOf "" "Albany" init_bias Genre.Action = 0 := by
    rw [priorsOf_eval]
    simp [h3, init_bias]
  have h5 : nycCond (normalize_text (jsTrim "nyc and New York")) = true := by decide
  refine ⟨by decide, hpr, ?_, by decide, by decide, ?_⟩
  · have hdp : (choose_genre_deep unifP "" "Albany" init_bias).debugPriors Genre.Action =
        round3 (priorsOf "" "Albany" init_bias Genre.Action) := rfl
    rw [hdp, hpr]
    unfold round3
    norm_num
  · rw [priorsOf_eval]
    simp [h5, init_bias]

/-- C3 (amended): each of the two grouped location rules fires at most once:
if the normalized location contains "new york" or "nyc" or equals "ny"
exactly, the Action prior gains 7/20 (once, however many of the substrings
match); if it contains "san francisco", "bay area" or "seattle", the Sci-Fi
prior gains 7/20; the rules are additive with the user bias (and with each
other — they target different genres), and whenever the NYC rule fires and
the user's Action bias is nonnegative, the decision's debug Action prior is
strictly positive. -/
theorem c3_amended_location_priors (probs : Genre → ℚ) (bio loc : String)
    (bias : Genre → ℚ) :
    priorsOf bio loc bias Genre.Action =
      (if nycCond (normalize_text (jsTrim loc)) = true then (7:ℚ)/20 else 0)
        + bias Genre.Action
    ∧ priorsOf bio loc bias Genre.SciFi =
      (if techCond (normalize_text (jsTrim loc)) = true then (7:ℚ)/20 else 0)
        + bias Genre.SciFi
    ∧ (nycCond (normalize_text (jsTrim loc)) = true → 0 ≤ bias Genre.Action →
        0 < (choose_genre_deep probs bio loc bias).debugPriors Genre.Action) := by
  have hA := priorsOf_eval bio loc bias Genre.Action
  have hS := priorsOf_eval bio loc bias Genre.SciFi
  simp only [reduceCtorEq, and_false, if_false, and_true, zero_add, add_zero] at hA hS
  refine ⟨hA, hS, ?_⟩
  intro hnyc hb
  have hdp : (choose_genre_deep probs bio loc bias).debugPriors Genre.Action =
      round3 (priorsOf bio loc bias Genre.Action) := rfl
  rw [hdp, hA, if_pos hnyc]
  unfold round3
  have h350 : (350:ℤ) ≤ ⌊((7:ℚ)/20 + bias Genre.Action) * 1000 + 1/2⌋ := by
    rw [Int.le_floor]
    push_cast
    linarith
  have hcastpos : (0:ℚ) < (⌊((7:ℚ)/20 + bias Genre.Action) * 1000 + 1/2⌋ : ℚ) := by
    have h2 : (0:ℤ) < ⌊((7:ℚ)/20 + bias Genre.Action) * 1000 + 1/2⌋ := by omega
    exact_mod_cast h2
  exact div_pos hcastpos (by norm_num)

theorem c3_amended_location_priors_witness :
    priorsOf "" "New York" init_bias Genre.Action = 7/20
    ∧ 0 < (choose_genre_deep unifP "" "New York" init_bias).debugPriors Genre.Action := by
  have h := c3_amended_location_priors unifP "" "New York" init_bias
  have hnyc : nycCond (normalize_text (jsTrim "New York")) = true := by decide
  constructor
  · rw [h.1, if_pos hnyc]
    norm_num [init_bias]
  · exact h.2.2 hnyc (by norm_num [init_bias])

/- ===================== C9 / C10: feedback loop ===================== -/

theorem clamp_range (x : ℚ) : -2 ≤ clamp_num x (-2) 2 ∧ clamp_num x (-2) 2 ≤ 2 := by
  unfold clamp_num
  refine ⟨le_max_left _ _, max_le (by norm_num) (min_le_left _ _)⟩

theorem biasVal_getD (s : Session) (g : Genre) :
    (s.preferenceBias.getD init_bias) g = biasVal s g := by
  cases h : s.preferenceBias <;> simp [biasVal, h, init_bias]

theorem handle_feedback_fail (sess : Option Session) (nb : NBState)
    (body : Except String FBody)
    (h : (handle_feedback sess nb body).2.2.ok = false) :
    (handle_feedback sess nb body).1 = sess ∧ (handle_feedback sess nb body).2.1 = nb := by
  match sess with
  | none => simp [handle_feedback]
  | some s =>
    match body with
    | .error e => simp [handle_feedback]
    | .ok b =>
      simp only [handle_feedback] at h ⊢
      by_cases hc : jsTrim b.imdbID = ""
          ∨ (toLowerStr (jsTrim b.action) ≠ "like" ∧ toLowerStr (jsTrim b.action) ≠ "dislike")
      · rw [if_pos hc]
        exact ⟨rfl, rfl⟩
      · rw [if_neg hc] at h ⊢
        cases hlast : s.last with
        | none => simp [hlast]
        | some lr =>
          cases hmv : lookupMovie lr.moviesById (jsTrim b.imdbID) with
          | none => simp [hlast, hmv]
          | some movie => simp [hlast, hmv] at h

theorem handle_feedback_success (s : Session) (nb : NBState) (b : FBody) (lr : LastRun)
    (movie : Movie)
    (hcond : ¬ (jsTrim b.imdbID = ""
        ∨ (toLowerStr (jsTrim b.action) ≠ "like" ∧ toLowerStr (jsTrim b.action) ≠ "dislike")))
    (hlast : s.last = some lr)
    (hmv : lookupMovie lr.moviesById (jsTrim b.imdbID) = some movie) :
    handle_feedback (some s) nb (.ok b) =
      (some { s with preferenceBias := some (upd (s.preferenceBias.getD init_bias) lr.genre
          (if toLowerStr (jsTrim b.action) = "like"
           then clamp_num ((s.preferenceBias.getD init_bias) lr.genre + STEPQ) (-2) 2
           else clamp_num ((s.preferenceBias.getD init_bias) lr.genre - STEPQ) (-2) 2)) },
       (if toLowerStr (jsTrim b.action) = "like"
        then trainOne nb lr.genre (build_movie_training_text movie) else nb),
       ⟨200, true⟩) := by
  simp only [handle_feedback, hlast, hmv]
  rw [if_neg hcond]

theorem feedbackStep_bias_range (s : Session) (nb : NBState) (body : Except String FBody)
    (h : ∀ g, -2 ≤ biasVal s g ∧ biasVal s g ≤ 2) :
    ∀ g, -2 ≤ biasVal (feedbackStep (s, nb) body).1 g
       ∧ biasVal (feedbackStep (s, nb) body).1 g ≤ 2 := by
  intro g
  unfold feedbackStep
  match body with
  | .error e =>
    simp only [handle_feedback]
    exact h g
  | .ok b =>
    by_cases hc : jsTrim b.imdbID = ""
        ∨ (toLowerStr (jsTrim b.action) ≠ "like" ∧ toLowerStr (jsTrim b.action) ≠ "dislike")
    · have hq : handle_feedback (some s) nb (.ok b) = (some s, nb, ⟨400, false⟩) := by
        simp only [handle_feedback]
        rw [if_pos hc]
      rw [hq]
      exact h g
    · cases hlast : s.last with
      | none =>
        have hq : handle_feedback (some s) nb (.ok b) = (some s, nb, ⟨400, false⟩) := by
          simp only [handle_feedback, hlast]
          rw [if_neg hc]
        rw [hq]
        exact h g
      | some lr =>
        cases hmv : lookupMovie lr.moviesById (jsTrim b.imdbID) with
        | none =>
          have hq : handle_feedback (some s) nb (.ok b) = (some s, nb, ⟨404, false⟩) := by
            simp only [handle_feedback, hlast, hmv]
            rw [if_neg hc]
          rw [hq]
          exact h g
        | some movie =>
          rw [handle_feedback_success s nb b lr movie hc hlast hmv]
          simp only [biasVal]
          by_cases hg : g = lr.genre
          · subst hg
            simp only [upd, if_pos rfl]
            split_ifs <;> exact clamp_range _
          · simp only [upd, if_neg hg]
            rw [biasVal_getD]
            exact h g

theorem feedback_fold_bias_range (bodies : List (Except String FBody)) :
    ∀ (s : Session) (nb : NBState),
      (∀ g, -2 ≤ biasVal s g ∧ biasVal s g ≤ 2) →
      ∀ g, -2 ≤ biasVal (bodies.foldl feedbackStep (s, nb)).1 g
         ∧ biasVal (bodies.foldl feedbackStep (s, nb)).1 g ≤ 2 := by
  induction bodies with
  | nil => intro s nb h g; exact h g
  | cons body rest ih =>
    intro s nb h g
    rw [List.foldl_cons]
    rcases hstep : feedbackStep (s, nb) body with ⟨s2, nb2⟩
    have h2 := feedbackStep_bias_range s nb body h
    rw [hstep] at h2
    exact ih s2 nb2 h2 g

/-- C9: every per-user bias value stays in [-2, 2] through every sequence of
feedback calls (starting from any session whose bias values are in range,
e.g. the all-zero map installed at session creation), and every successful
call moves the bias of the last run's genre by exactly +STEP for like and
-STEP for dislike, clamped into [-2, 2]. -/
theorem c9_bias_clamped (s : Session) (nb : NBState) :
    ((∀ g, -2 ≤ biasVal s g ∧ biasVal s g ≤ 2) →
      ∀ (bodies : List (Except String FBody)) (g : Genre),
        -2 ≤ biasVal (bodies.foldl feedbackStep (s, nb)).1 g
        ∧ biasVal (bodies.foldl feedbackStep (s, nb)).1 g ≤ 2)
    ∧ ∀ (b : FBody) (lr : LastRun), s.last = some lr →
        (handle_feedback (some s) nb (.ok b)).2.2.ok = true →
        ∃ s2, (handle_feedback (some s) nb (.ok b)).1 = some s2
          ∧ biasVal s2 lr.genre =
              clamp_num (biasVal s lr.genre +
                (if toLowerStr (jsTrim b.action) = "like" then STEPQ else -STEPQ)) (-2) 2 := by
  constructor
  · intro hrange bodies g
    exact feedback_fold_bias_range bodies s nb hrange g
  · intro b lr hlast hok
    by_cases hc : jsTrim b.imdbID = ""
        ∨ (toLowerStr (jsTrim b.action) ≠ "like" ∧ toLowerStr (jsTrim b.action) ≠ "dislike")
    · exfalso
      have hq : handle_feedback (some s) nb (.ok b) = (some s, nb, ⟨400, false⟩) := by
        simp only [handle_feedback]
        rw [if_pos hc]
      rw [hq] at hok
      simp at hok
    · cases hmv : lookupMovie lr.moviesById (jsTrim b.imdbID) with
      | none =>
        exfalso
        have hq : handle_feedback (some s) nb (.ok b) = (some s, nb, ⟨404, false⟩) := by
          simp only [handle_feedback, hlast, hmv]
          rw [if_neg hc]
        rw [hq] at hok
        simp at hok
      | some movie =>
        rw [handle_feedback_success s nb b lr movie hc hlast hmv]
        refine ⟨_, rfl, ?_⟩
        simp only [biasVal, upd, if_pos rfl]
        by_cases ha : toLowerStr (jsTrim b.action) = "like"
        · rw [if_pos ha, if_pos ha, biasVal_getD]
          rfl
        · rw [if_neg ha, if_neg ha, biasVal_getD, sub_eq_add_neg]
          rfl

theorem c9_bias_clamped_witness :
    (-2 ≤ biasVal (([Except.ok ⟨"tt1", "like"⟩].foldl feedbackStep (s0, initNB)).1) Genre.Drama
      ∧ biasVal (([Except.ok ⟨"tt1", "like"⟩].foldl feedbackStep (s0, initNB)).1) Genre.Drama ≤ 2)
    ∧ ∃ s2, (handle_feedback (some s0) initNB (.ok ⟨"tt1", "dislike"⟩)).1 = some s2
        ∧ biasVal s2 lr0.genre =
            clamp_num (biasVal s0 lr0.genre +
              (if toLowerStr (jsTrim (FBody.mk "tt1" "dislike").action) = "like"
               then STEPQ else -STEPQ)) (-2) 2 := by
  constructor
  · exact (c9_bias_clamped s0 initNB).1
      (by intro g; constructor <;> simp [biasVal, s0, init_bias])
      [Except.ok ⟨"tt1", "like"⟩] Genre.Drama
  · exact (c9_bias_clamped s0 initNB).2 ⟨"tt1", "dislike"⟩ lr0 rfl (by decide)

/-- C10: a successful feedback call mutates only the bias entry for the
genre stored in the session's last-run record — every other label's bias
value is unchanged and the last-run record itself is untouched — and for the
dislike action the shared classifier state is entirely unchanged; on any
precondition failure (not logged in, body parse error, invalid action, no
last run, unknown movie id) neither the session (hence its bias map) nor the
classifier state is mutated. -/
theorem c10_feedback_frame (sess : Option Session) (nb : NBState)
    (body : Except String FBody) :
    ((handle_feedback sess nb body).2.2.ok = false →
      (handle_feedback sess nb body).1 = sess ∧ (handle_feedback sess nb body).2.1 = nb)
    ∧ ∀ (s : Session) (b : FBody) (lr : LastRun),
        sess = some s → body = .ok b → s.last = some lr →
        (handle_feedback sess nb body).2.2.ok = true →
        ∃ s2, (handle_feedback sess nb body).1 = some s2
          ∧ s2.last = s.last
          ∧ (∀ g, g ≠ lr.genre → biasVal s2 g = biasVal s g)
          ∧ (toLowerStr (jsTrim b.action) = "dislike" →
              (handle_feedback sess nb body).2.1 = nb) := by
  constructor
  · exact handle_feedback_fail sess nb body
  · rintro s b lr rfl rfl hlast hok
    by_cases hc : jsTrim b.imdbID = ""
        ∨ (toLowerStr (jsTrim b.action) ≠ "like" ∧ toLowerStr (jsTrim b.action) ≠ "dislike")
    · exfalso
      have hq : handle_feedback (some s) nb (.ok b) = (some s, nb, ⟨400, false⟩) := by
        simp only [handle_feedback]
        rw [if_pos hc]
      rw [hq] at hok
      simp at hok
    · cases hmv : lookupMovie lr.moviesById (jsTrim b.imdbID) with
      | none =>
        exfalso
        have hq : handle_feedback (some s) nb (.ok b) = (some s, nb, ⟨404, false⟩) := by
          simp only [handle_feedback, hlast, hmv]
          rw [if_neg hc]
        rw [hq] at hok
        simp at hok
      | some movie =>
        rw [handle_feedback_success s nb b lr movie hc hlast hmv]
        refine ⟨_, rfl, rfl, ?_, ?_⟩
        · intro g hg
          simp only [biasVal, upd, if_neg hg]
          rw [biasVal_getD]
          rfl
        · intro ha
          have hnl : ¬ toLowerStr (jsTrim b.action) = "like" := by
            rw [ha]; decide
          simp only
          rw [if_neg hnl]

theorem c10_feedback_frame_witness :
    ∃ s2, (handle_feedback (some s0) initNB (.ok ⟨"tt1", "dislike"⟩)).1 = some s2
      ∧ s2.last = s0.last
      ∧ (∀ g, g ≠ lr0.genre → biasVal s2 g = biasVal s0 g)
      ∧ (toLowerStr (jsTrim (FBody.mk "tt1" "dislike").action) = "dislike" →
          (handle_feedback (some s0) initNB (.ok ⟨"tt1", "dislike"⟩)).2.1 = initNB) :=
  (c10_feedback_frame (some s0) initNB (.ok ⟨"tt1", "dislike"⟩)).2 s0 ⟨"tt1", "dislike"⟩
    lr0 rfl rfl rfl (by decide)

/- ===================== C1: search-page failure semantics ===================== -/

/-- C1 counterexample: the claim says a network/parse failure on a search
page is not fatal — pagination stops and the pipeline proceeds to Phase 2
with the candidates already collected.  In the code, `fetch_page`'s callback
runs `if (err) return cb(err, [], debug)`: page 1 collects a candidate, page
2 fails at the network level, and the whole pipeline returns the error with
no results instead of proceeding with the partial candidate list. -/
theorem c1_cex :
    pageStep ([], []) [some "a"] = (["a"], [some "a"])
    ∧ fetch_pages c1oracle 1 [] [] = .error "boom"
    ∧ omdb_search_then_fill c1oracle c1det 10 7 = .error "boom" := by
  have h1 : c1oracle 1 = .page [some "a"] := rfl
  have h2 : c1oracle 2 = .neterr "boom" := rfl
  have hps : pageStep ([], []) [some "a"] = (["a"], [some "a"]) := by decide
  have hc : ¬ (MAX_PAGES ≤ 1
      ∨ 45 ≤ (pageStep (([] : List String), ([] : List (Option String))) [some "a"]).2.length) := by
    decide
  have hfp : fetch_pages c1oracle 1 [] [] = .error "boom" := by
    rw [fp_page c1oracle 1 [] [] [some "a"] h1, if_neg hc]
    exact fp_neterr c1oracle 2 _ _ "boom" h2
  refine ⟨hps, hfp, ?_⟩
  unfold omdb_search_then_fill
  rw [hfp]

/-- C1 (amended): on a search page, only an API-level failure
(`Response === "False"`, e.g. no results) is non-fatal — it truncates
pagination and the pipeline proceeds to Phase 2 with the candidates already
collected.  A network or JSON-parse failure on a search page is fatal: the
pipeline immediately returns that error with no results (this also holds on
page 1, where nothing was collected yet). -/
theorem c1_amended_page_failures (oracle : ℕ → SearchResp) (det : String → DetailResp)
    (limit : ℕ) (minr : ℚ) (rs : List (Option String)) (e : String) :
    (oracle 1 = .neterr e → omdb_search_then_fill oracle det limit minr = .error e)
    ∧ (oracle 1 = .page rs → oracle 2 = .apiNo →
        omdb_search_then_fill oracle det limit minr =
          finishP det limit minr (pageStep ([], []) rs).2)
    ∧ (oracle 1 = .page rs → oracle 2 = .neterr e →
        (pageStep ([], []) rs).2.length < 45 →
        omdb_search_then_fill oracle det limit minr = .error e) := by
  refine ⟨?_, ?_, ?_⟩
  · intro h1
    unfold omdb_search_then_fill
    rw [fp_neterr oracle 1 [] [] e h1]
  · intro h1 h2
    unfold omdb_search_then_fill
    rw [fp_page oracle 1 [] [] rs h1]
    by_cases hc : MAX_PAGES ≤ 1 ∨ 45 ≤ (pageStep (([] : List String), ([] : List (Option String))) rs).2.length
    · rw [if_pos hc]
    · rw [if_neg hc, fp_apiNo oracle 2 _ _ h2]
  · intro h1 h2 hlen
    unfold omdb_search_then_fill
    rw [fp_page oracle 1 [] [] rs h1]
    have hc : ¬ (MAX_PAGES ≤ 1
        ∨ 45 ≤ (pageStep (([] : List String), ([] : List (Option String))) rs).2.length) := by
      simp only [MAX_PAGES]
      omega
    rw [if_neg hc, fp_neterr oracle 2 _ _ e h2]

theorem c1_amended_page_failures_witness :
    omdb_search_then_fill c1oracleB c1det 3 8 =
      finishP c1det 3 8 (pageStep ([], []) [some "a", some "b"]).2
    ∧ omdb_search_then_fill c1oracle c1det 3 8 = .error "boom" := by
  constructor
  · exact (c1_amended_page_failures c1oracleB c1det 3 8 [some "a", some "b"] "x").2.1 rfl rfl
  · exact (c1_amended_page_failures c1oracle c1det 3 8 [some "a"] "boom").2.2 rfl rfl
      (by decide)

theorem c8_classifier_invariant_witness :
    nbInv (trainSeq [(Genre.SciFi, "ai ml ai")])
    ∧ nbLE (trainSeq [(Genre.SciFi, "ai ml ai")])
        (trainSeq ([(Genre.SciFi, "ai ml ai")] ++ [(Genre.Drama, "art film")])) :=
  ⟨(c8_classifier_invariant [(Genre.SciFi, "ai ml ai")]).1,
   (c8_classifier_invariant [(Genre.SciFi, "ai ml ai")]).2 [(Genre.Drama, "art film")]⟩
